import Mathlib

/-!
Verification of the gitViewer pages resolver and blob preview (src/main.go).

The Go code in `handlePages` maps a URL `/pages/{branch}/{path}` to the
git spec `{branch}:{path}`, trying progressively shorter segment-joins as
candidate branch names, falling back to the branch `gh-pages`.  We embed
the handler and its string helpers shallowly: Go strings become Lean
`String` (a structure over `List Char`, matching Go's sequence-of-
characters view for the slash-splitting done here), the external
`gitHasBranch` oracle becomes a function `String → Except Unit Bool`
(`Except.error` modelling a process failure, `Except.ok` the boolean
answer), and the external `gitShowFile` content lookup becomes a function
`String → Option (List Nat)` (`none` modelling a failed `git show`).
HTTP responses are modelled by the status code and message passed to
`httpError`, or the served body.
-/

namespace GitViewer

/-- Splits a character list at every occurrence of `sep`, keeping empty
pieces, with `[[]]` for the empty list — the semantics of Go
`strings.Split` for a one-character separator. -/
def splitChar (sep : Char) : List Char → List (List Char)
  | [] => [[]]
  | c :: cs =>
    match splitChar sep cs with
    | [] => [[]]
    | p :: ps => if c = sep then [] :: p :: ps else (c :: p) :: ps

/-- Interleaves `sep` between the pieces — the semantics of Go
`strings.Join` for a one-character separator. -/
def joinChar (sep : Char) : List (List Char) → List Char
  | [] => []
  | [p] => p
  | p :: ps => p ++ sep :: joinChar sep ps

/-- Go `strings.Split(s, sep)` for the one-character separator used by the
handler. -/
def goSplit (s : String) (sep : Char) : List String :=
  (splitChar sep s.toList).map String.mk

/-- Go `strings.Join(xs, sep)` for the one-character separator used by the
handler. -/
def goJoin (sep : Char) (xs : List String) : String :=
  String.mk (joinChar sep (xs.map String.toList))

/-- Go `strings.HasSuffix(s, c)` for the one-character suffix used by the
handler: does the last character equal `c`? -/
def goEndsWith (s : String) (c : Char) : Bool :=
  s.toList.getLast? == some c

/-- Go `strings.TrimSuffix(s, c)` for a one-character suffix: drop the last
character when it is `c`. -/
def goTrimSuf (s : String) (c : Char) : String :=
  if goEndsWith s c then String.mk s.toList.dropLast else s

/-- Go front-trimming (the `strings` function dual to `goTrimSuf`): drop
`pre` from the front when `s` starts with it, else return `s` unchanged. -/
def goTrimPre (s pre : String) : String :=
  if pre.toList.isPrefixOf s.toList then String.mk (s.toList.drop pre.toList.length) else s

/-- Go `strings.ReplaceAll(s, a, b)` for one-character pattern and
replacement: replace every occurrence of `a` by `b`. -/
def goReplaceAll (s : String) (a b : Char) : String :=
  String.mk (s.toList.map fun c => if c = a then b else c)

/-- Embedding of `normalizeRepoPath` (src/main.go:601): convert backslashes
to forward slashes and trim one leading slash. -/
def normalizeRepoPath (p : String) : String :=
  goTrimPre (goReplaceAll p '\\' '/') "/"

/-- The `pathAfterPages` value after the handler's default substitution
(src/main.go:437): an empty input defaults to `"gh-pages/"`. -/
def pagesInput (p : String) : String :=
  if p = "" then "gh-pages/" else p

/-- The segment sequence of `handlePages` (src/main.go:442): the input,
trailing slash trimmed, split on `/`. -/
def pagesSegments (p : String) : List String :=
  goSplit (goTrimSuf (pagesInput p) '/') '/'

/-- The sub-path adjustment of src/main.go:463: re-append a trailing slash
when the original input ended with one and the sub-path is non-empty. -/
def trailSlash (slashEnd : Bool) (sp : String) : String :=
  if slashEnd && !(sp == "") then sp ++ "/" else sp

/-- The branch-probing loop of `handlePages` (src/main.go:450-469), with the
loop counter `i` running from `k` down to `1`: join the first `i` segments
as a candidate branch name and ask the `hasBranch` oracle; an oracle error
aborts, a positive answer returns the candidate together with the remaining
segments joined as sub-path, a negative answer moves to the next shorter
candidate; `none` when no candidate exists. -/
def tryPrefixes (hasBranch : String → Except Unit Bool) (segs : List String)
    (slashEnd : Bool) : Nat → Except Unit (Option (String × String))
  | 0 => Except.ok none
  | k + 1 =>
    match hasBranch (goJoin '/' (segs.take (k + 1))) with
    | Except.error e => Except.error e
    | Except.ok true =>
      Except.ok (some (goJoin '/' (segs.take (k + 1)),
        trailSlash slashEnd (if k + 1 < segs.length then goJoin '/' (segs.drop (k + 1)) else "")))
    | Except.ok false => tryPrefixes hasBranch segs slashEnd k

/-- Outcome of the branch-resolution phase of `handlePages`
(src/main.go:434-485), before the content lookup. -/
inductive ResolveOut where
  /-- An oracle error inside the probing loop (reported as HTTP 500
  "Failed to check branch"). -/
  | internalErrorBranch : ResolveOut
  /-- An oracle error while verifying the fallback branch (reported as
  HTTP 500 "Failed to check gh-pages branch"). -/
  | internalErrorDefault : ResolveOut
  /-- No candidate matched and the fallback branch `gh-pages` does not
  exist (reported as HTTP 404). -/
  | noDefault : ResolveOut
  /-- A branch and raw sub-path were resolved. -/
  | resolved (branch subPath : String) : ResolveOut
deriving DecidableEq

/-- Embedding of the resolution phase of `handlePages`
(src/main.go:434-485): default the empty input to `gh-pages/`, split into
segments, probe candidate prefixes longest-first, and on failure fall back
to the `gh-pages` branch with the entire (defaulted) input as sub-path,
verifying that `gh-pages` exists. -/
def pagesResolve (hasBranch : String → Except Unit Bool) (p : String) : ResolveOut :=
  match tryPrefixes hasBranch (pagesSegments p) (goEndsWith (pagesInput p) '/')
      (pagesSegments p).length with
  | Except.error _ => ResolveOut.internalErrorBranch
  | Except.ok (some (b, sp)) => ResolveOut.resolved b sp
  | Except.ok none =>
    match hasBranch "gh-pages" with
    | Except.error _ => ResolveOut.internalErrorDefault
    | Except.ok false => ResolveOut.noDefault
    | Except.ok true => ResolveOut.resolved "gh-pages" (pagesInput p)

/-- The sub-path normalization of src/main.go:487-491: normalize the
repository path, then append the default document `index.html` when the
sub-path is empty or slash-terminated. -/
def pagesFinalSubPath (subPath : String) : String :=
  let sp := normalizeRepoPath subPath
  if sp == "" || goEndsWith sp '/' then sp ++ "index.html" else sp

/-- An HTTP outcome of the pages handler: either served content (with the
resolved branch and final sub-path) or an error status and message. -/
inductive PagesResponse where
  /-- Content served for `branch:subPath`. -/
  | content (branch subPath : String) (body : List Nat) : PagesResponse
  /-- An `httpError` response with its status code and message. -/
  | error (status : Nat) (msg : String) : PagesResponse
deriving DecidableEq

/-- The content-lookup step of `handlePages` (src/main.go:493-506): fetch
`branch:finalSubPath` via the `gitShowFile` collaborator; a failed lookup
is answered with HTTP 404 naming the attempted branch. -/
def pagesLookup (showFile : String → Option (List Nat))
    (branch subPath0 : String) : PagesResponse :=
  match showFile (branch ++ ":" ++ pagesFinalSubPath subPath0) with
  | none => PagesResponse.error 404 ("File not found in " ++ branch)
  | some body => PagesResponse.content branch (pagesFinalSubPath subPath0) body

/-- Embedding of `handlePages` (src/main.go:432-507) on the path after the
`/pages/` mount point, with the `gitHasBranch` oracle and the
`gitShowFile` lookup as explicit collaborators.  Serving states the body
and content type; we record the body and drop the MIME lookup, which no
claim concerns. -/
def handlePages (hasBranch : String → Except Unit Bool)
    (showFile : String → Option (List Nat)) (p : String) : PagesResponse :=
  match pagesResolve hasBranch p with
  | ResolveOut.internalErrorBranch => PagesResponse.error 500 "Failed to check branch"
  | ResolveOut.internalErrorDefault => PagesResponse.error 500 "Failed to check gh-pages branch"
  | ResolveOut.noDefault =>
    PagesResponse.error 404 "No valid branch found in path and gh-pages branch does not exist"
  | ResolveOut.resolved branch subPath0 => pagesLookup showFile branch subPath0

/-- Embedding of `handlePages` on a full URL path: src/main.go:434 strips
the `/pages/` mount point first. -/
def handlePagesURL (hasBranch : String → Except Unit Bool)
    (showFile : String → Option (List Nat)) (urlPath : String) : PagesResponse :=
  handlePages hasBranch showFile (goTrimPre urlPath "/pages/")

/-- The HTTP status code of a pages response (served content is 200 OK). -/
def statusOf : PagesResponse → Nat
  | PagesResponse.content _ _ _ => 200
  | PagesResponse.error s _ => s

/-- A pure branch oracle built from a membership predicate: the
`gitHasBranch` collaborator in the runs where the external tool never
fails. -/
def pureOracle (B : String → Bool) : String → Except Unit Bool :=
  fun s => Except.ok (B s)

example : pagesResolve (pureOracle fun s => s == "release" || s == "release/v2")
    "release/v2/docs/index.html" = ResolveOut.resolved "release/v2" "docs/index.html" := by decide

example : pagesResolve (pureOracle fun s => s == "main") "unknown/path.html"
    = ResolveOut.noDefault := by decide

example : pagesResolve (pureOracle fun s => s == "main" || s == "gh-pages") "unknown/path.html"
    = ResolveOut.resolved "gh-pages" "unknown/path.html" := by decide

example : pagesResolve (pureOracle fun s => s == "main") "main/assets/"
    = ResolveOut.resolved "main" "assets/" := by decide

example : pagesFinalSubPath "assets/" = "assets/index.html" := by decide

example : pagesResolve (pureOracle fun s => s == "gh-pages") ""
    = ResolveOut.resolved "gh-pages" "" := by decide

example : pagesResolve (pureOracle fun s => s == "main") "main//"
    = ResolveOut.resolved "main" "" := by decide

example : pagesFinalSubPath "" = "index.html" := by decide

/-! Helper lemmas about the string helpers. -/

/-- Splitting never yields an empty list of pieces. -/
theorem splitChar_ne_nil (sep : Char) (l : List Char) : splitChar sep l ≠ [] := by
  cases l with
  | nil => simp [splitChar]
  | cons c cs =>
    simp only [splitChar]
    cases h : splitChar sep cs with
    | nil => simp
    | cons p ps =>
      by_cases hc : c = sep <;> simp [hc]

/-- Joining the pieces of a split reconstructs the original list. -/
theorem joinChar_splitChar (sep : Char) (l : List Char) :
    joinChar sep (splitChar sep l) = l := by
  induction l with
  | nil => rfl
  | cons c cs ih =>
    simp only [splitChar]
    cases h : splitChar sep cs with
    | nil => exact absurd h (splitChar_ne_nil sep cs)
    | cons p ps =>
      rw [h] at ih
      by_cases hc : c = sep
      · subst hc
        simp only [if_pos rfl]
        cases ps with
        | nil => simpa [joinChar] using ih
        | cons q qs => simpa [joinChar] using ih
      · simp only [if_neg hc]
        cases ps with
        | nil => simpa [joinChar] using ih
        | cons q qs => simpa [joinChar] using ih

/-- String-level round trip: joining a split with the same separator gives
back the original string. -/
theorem goJoin_goSplit (sep : Char) (s : String) :
    goJoin sep (goSplit s sep) = s := by
  show String.mk (joinChar sep (((splitChar sep s.toList).map String.mk).map String.toList)) = s
  rw [List.map_map]
  have h1 : ((splitChar sep s.toList).map (String.toList ∘ String.mk)) = splitChar sep s.toList := by
    rw [show (String.toList ∘ String.mk) = id from rfl, List.map_id]
  rw [h1, joinChar_splitChar]
  rfl

/-! Helper lemmas about the branch-probing loop. -/

/-- If the oracle answers `false` for every candidate of length `1..k`, the
probing loop finds nothing. -/
theorem tryPrefixes_none (hasBranch : String → Except Unit Bool) (segs : List String)
    (slashEnd : Bool) :
    ∀ k, (∀ j, 1 ≤ j → j ≤ k → hasBranch (goJoin '/' (segs.take j)) = Except.ok false) →
    tryPrefixes hasBranch segs slashEnd k = Except.ok none := by
  intro k
  induction k with
  | zero => intro _; rfl
  | succ k ih =>
    intro h
    have hk : hasBranch (goJoin '/' (segs.take (k + 1))) = Except.ok false :=
      h (k + 1) (Nat.le_add_left 1 k) (Nat.le_refl _)
    simp only [tryPrefixes, hk]
    exact ih fun j h1 h2 => h j h1 (Nat.le_succ_of_le h2)

/-- Greedy longest match: if the oracle (never erring) answers `true` for
the candidate of length `i` and `false` for every longer candidate up to
`k`, the probing loop started at `k` returns the length-`i` candidate with
the remaining segments as sub-path. -/
theorem tryPrefixes_found (B : String → Bool) (segs : List String) (slashEnd : Bool) :
    ∀ k i, 1 ≤ i → i ≤ k → B (goJoin '/' (segs.take i)) = true →
    (∀ j, i < j → j ≤ k → B (goJoin '/' (segs.take j)) = false) →
    tryPrefixes (pureOracle B) segs slashEnd k =
      Except.ok (some (goJoin '/' (segs.take i),
        trailSlash slashEnd (if i < segs.length then goJoin '/' (segs.drop i) else ""))) := by
  intro k
  induction k with
  | zero => intro i h1 h2; omega
  | succ k ih =>
    intro i h1 h2 hi hmax
    rcases Nat.lt_or_ge i (k + 1) with hlt | hge
    · have hk : B (goJoin '/' (segs.take (k + 1))) = false :=
        hmax (k + 1) hlt (Nat.le_refl _)
      simp only [tryPrefixes, pureOracle, hk]
      exact ih i h1 (by omega) hi fun j hj1 hj2 => hmax j hj1 (Nat.le_succ_of_le hj2)
    · have hik : i = k + 1 := by omega
      subst hik
      simp only [tryPrefixes, pureOracle, hi]

/-- If the oracle errs on the candidate of length `j` and answers `false`
for every longer candidate up to `k`, the probing loop aborts with that
error. -/
theorem tryPrefixes_error (hasBranch : String → Except Unit Bool) (segs : List String)
    (slashEnd : Bool) :
    ∀ k j, 1 ≤ j → j ≤ k → hasBranch (goJoin '/' (segs.take j)) = Except.error () →
    (∀ m, j < m → m ≤ k → hasBranch (goJoin '/' (segs.take m)) = Except.ok false) →
    tryPrefixes hasBranch segs slashEnd k = Except.error () := by
  intro k
  induction k with
  | zero => intro j h1 h2; omega
  | succ k ih =>
    intro j h1 h2 hj hmax
    rcases Nat.lt_or_ge j (k + 1) with hlt | hge
    · have hk : hasBranch (goJoin '/' (segs.take (k + 1))) = Except.ok false :=
        hmax (k + 1) hlt (Nat.le_refl _)
      simp only [tryPrefixes, hk]
      exact ih j h1 (by omega) hj fun m hm1 hm2 => hmax m hm1 (Nat.le_succ_of_le hm2)
    · have hjk : j = k + 1 := by omega
      subst hjk
      simp only [tryPrefixes, hj]

/-- A pure (never-erring) oracle never makes the probing loop err. -/
theorem tryPrefixes_pure_ne_error (B : String → Bool) (segs : List String)
    (slashEnd : Bool) :
    ∀ k, tryPrefixes (pureOracle B) segs slashEnd k ≠ Except.error () := by
  intro k
  induction k with
  | zero => simp [tryPrefixes]
  | succ k ih =>
    simp only [tryPrefixes, pureOracle]
    cases hB : B (goJoin '/' (segs.take (k + 1))) with
    | true => simp
    | false => simpa using ih

/-- Whatever branch the probing loop returns, the oracle confirmed it. -/
theorem tryPrefixes_confirmed (hasBranch : String → Except Unit Bool) (segs : List String)
    (slashEnd : Bool) :
    ∀ k b sp, tryPrefixes hasBranch segs slashEnd k = Except.ok (some (b, sp)) →
    hasBranch b = Except.ok true := by
  intro k
  induction k with
  | zero => intro b sp h; simp [tryPrefixes] at h
  | succ k ih =>
    intro b sp h
    simp only [tryPrefixes] at h
    cases hB : hasBranch (goJoin '/' (segs.take (k + 1))) with
    | error e => rw [hB] at h; cases h
    | ok v =>
      cases v with
      | true =>
        rw [hB] at h
        simp only [Except.ok.injEq, Option.some.injEq, Prod.mk.injEq] at h
        rw [← h.1]
        exact hB
      | false =>
        rw [hB] at h
        exact ih b sp h

/-- Dropping the head of a list keeps its last element, unless nothing is
left. -/
theorem getLast?_drop_one (l : List Char) (c : Char) (h : l.getLast? = some c) :
    l.drop 1 = [] ∨ (l.drop 1).getLast? = some c := by
  cases l with
  | nil => simp at h
  | cons a l2 =>
    cases l2 with
    | nil => left; rfl
    | cons b l3 =>
      right
      simpa [List.getLast?_cons_cons] using h

/-- Appending a slash makes a string end with a slash. -/
theorem goEndsWith_append_slash (s : String) : goEndsWith (s ++ "/") '/' = true := by
  have h : (s ++ "/").toList = s.toList ++ ['/'] := by
    cases s
    rfl
  simp [goEndsWith, h]

/-- `normalizeRepoPath` maps a slash-terminated path to an empty or
slash-terminated path: backslash replacement keeps the final slash and
trimming one leading slash only shortens the front. -/
theorem normalize_slash (sp : String) (h : goEndsWith sp '/' = true) :
    (normalizeRepoPath sp == "" || goEndsWith (normalizeRepoPath sp) '/') = true := by
  have h0 : sp.toList.getLast? = some '/' := by
    simpa [goEndsWith] using h
  have hmap : (goReplaceAll sp '\\' '/').toList.getLast? = some '/' := by
    show (sp.toList.map fun c => if c = '\\' then '/' else c).getLast? = some '/'
    rw [List.getLast?_map, h0]
    rfl
  unfold normalizeRepoPath goTrimPre
  cases hpre : ("/" : String).toList.isPrefixOf (goReplaceAll sp '\\' '/').toList with
  | false =>
    simp only [hpre, Bool.false_eq_true, if_neg, ite_false]
    have hg : goEndsWith (goReplaceAll sp '\\' '/') '/' = true := by
      show ((goReplaceAll sp '\\' '/').toList.getLast? == some '/') = true
      rw [hmap]
      rfl
    rw [Bool.or_eq_true]
    exact Or.inr hg
  | true =>
    simp only [hpre, ite_true]
    rw [show ("/" : String).toList.length = 1 from rfl]
    rcases getLast?_drop_one _ _ hmap with hnil | hlast
    · rw [hnil]
      decide
    · have hg : goEndsWith (String.mk ((goReplaceAll sp '\\' '/').toList.drop 1)) '/' = true := by
        show (((goReplaceAll sp '\\' '/').toList.drop 1).getLast? == some '/') = true
        rw [hlast]
        rfl
      rw [Bool.or_eq_true]
      exact Or.inr hg

/-- With a never-erring oracle, the resolution phase ends either resolved
or in the missing-default outcome — never in an internal error. -/
theorem pagesResolve_pure_cases (B : String → Bool) (p : String) :
    (∃ b sp, pagesResolve (pureOracle B) p = ResolveOut.resolved b sp) ∨
    pagesResolve (pureOracle B) p = ResolveOut.noDefault := by
  unfold pagesResolve
  cases htry : tryPrefixes (pureOracle B) (pagesSegments p) (goEndsWith (pagesInput p) '/')
      (pagesSegments p).length with
  | error e =>
    cases e
    exact absurd htry (tryPrefixes_pure_ne_error B _ _ _)
  | ok v =>
    cases v with
    | none =>
      rw [show pureOracle B "gh-pages" = Except.ok (B "gh-pages") from rfl]
      cases hB : B "gh-pages" with
      | false => right; rfl
      | true => left; exact ⟨"gh-pages", pagesInput p, rfl⟩
    | some bs =>
      obtain ⟨b', sp'⟩ := bs
      left
      exact ⟨b', sp', rfl⟩

/-! Claim theorems. -/

/-- C1: Greedy longest-match — for every branch set and every non-empty
input tail, if the branch set contains the join of the first `i` segments
and no longer join, the resolver accepts that join as the branch and the
remaining segments joined with `/` (with the trailing slash of the input
restored when applicable) as the sub-path. -/
theorem pages_longest_match (B : String → Bool) (p : String) (i : Nat)
    (hp : p ≠ "") (h1 : 1 ≤ i) (h2 : i ≤ (pagesSegments p).length)
    (hi : B (goJoin '/' ((pagesSegments p).take i)) = true)
    (hmax : ∀ j, i < j → j ≤ (pagesSegments p).length →
      B (goJoin '/' ((pagesSegments p).take j)) = false) :
    pagesResolve (pureOracle B) p =
      ResolveOut.resolved (goJoin '/' ((pagesSegments p).take i))
        (trailSlash (goEndsWith p '/')
          (if i < (pagesSegments p).length then goJoin '/' ((pagesSegments p).drop i) else "")) := by
  have hin : pagesInput p = p := if_neg hp
  unfold pagesResolve
  rw [hin, tryPrefixes_found B (pagesSegments p) (goEndsWith p '/')
    (pagesSegments p).length i h1 h2 hi hmax]

/-- C1 witness: with branches `release` and `release/v2` and input
`release/v2/docs/index.html`, resolution yields branch `release/v2` and
sub-path `docs/index.html`. -/
theorem pages_longest_match_witness :
    pagesResolve (pureOracle fun s => s == "release" || s == "release/v2")
      "release/v2/docs/index.html" = ResolveOut.resolved "release/v2" "docs/index.html" := by
  have h := pages_longest_match (fun s => s == "release" || s == "release/v2")
    "release/v2/docs/index.html" 2 (by decide) (by decide) (by decide) (by decide)
    (by
      intro j hj1 hj2
      have hlen : (pagesSegments "release/v2/docs/index.html").length = 4 := by decide
      rw [hlen] at hj2
      interval_cases j <;> decide)
  exact h.trans (by decide)

/-- C2 counterexample: with branch set exactly `{main}` (so without a
`gh-pages` branch) and input `unknown/path.html`, the code answers the
not-found outcome for a missing default branch; it does not resolve to the
default branch with sub-path `unknown/path.html` as the claim states. -/
theorem pages_fallback_counterexample :
    pagesResolve (pureOracle fun s => s == "main") "unknown/path.html"
      = ResolveOut.noDefault ∧
    pagesResolve (pureOracle fun s => s == "main") "unknown/path.html"
      ≠ ResolveOut.resolved "gh-pages" "unknown/path.html" := by
  decide

/-- C2 (amended): for every non-empty input tail none of whose joined
segment-joins the oracle confirms, provided the default branch `gh-pages`
itself exists, the resolver falls back to branch `gh-pages` with the
entire original input, verbatim, as the sub-path. -/
theorem pages_fallback_default (hasBranch : String → Except Unit Bool) (p : String)
    (hp : p ≠ "")
    (hnone : ∀ j, 1 ≤ j → j ≤ (pagesSegments p).length →
      hasBranch (goJoin '/' ((pagesSegments p).take j)) = Except.ok false)
    (hdef : hasBranch "gh-pages" = Except.ok true) :
    pagesResolve hasBranch p = ResolveOut.resolved "gh-pages" p := by
  have hin : pagesInput p = p := if_neg hp
  unfold pagesResolve
  rw [tryPrefixes_none hasBranch _ _ _ hnone, hdef, hin]

/-- C2 witness: with branches `main` and `gh-pages` and input
`unknown/path.html` (neither `unknown` nor `unknown/path.html` a branch),
resolution falls back to `gh-pages` with sub-path `unknown/path.html`. -/
theorem pages_fallback_default_witness :
    pagesResolve (pureOracle fun s => s == "main" || s == "gh-pages") "unknown/path.html"
      = ResolveOut.resolved "gh-pages" "unknown/path.html" := by
  exact pages_fallback_default (pureOracle fun s => s == "main" || s == "gh-pages")
    "unknown/path.html" (by decide)
    (by
      intro j hj1 hj2
      have hlen : (pagesSegments "unknown/path.html").length = 2 := by decide
      rw [hlen] at hj2
      interval_cases j <;> rfl)
    rfl

/-- C3: when no segment-join of the input is an existing branch and the
fallback branch `gh-pages` does not exist either, the handler answers the
HTTP 404 client error naming the missing default branch — a handled
not-found outcome, not a crash or an internal (5xx) error. -/
theorem pages_missing_default_not_found (hasBranch : String → Except Unit Bool)
    (showFile : String → Option (List Nat)) (p : String)
    (hnone : ∀ j, 1 ≤ j → j ≤ (pagesSegments p).length →
      hasBranch (goJoin '/' ((pagesSegments p).take j)) = Except.ok false)
    (hdef : hasBranch "gh-pages" = Except.ok false) :
    handlePages hasBranch showFile p =
      PagesResponse.error 404 "No valid branch found in path and gh-pages branch does not exist" := by
  unfold handlePages pagesResolve
  rw [tryPrefixes_none hasBranch _ _ _ hnone, hdef]

/-- C3 witness: with no branches at all and input `x/y`, the handler
answers the 404 missing-default message. -/
theorem pages_missing_default_not_found_witness :
    handlePages (pureOracle fun _ => false) (fun _ => none) "x/y" =
      PagesResponse.error 404 "No valid branch found in path and gh-pages branch does not exist" := by
  exact pages_missing_default_not_found (pureOracle fun _ => false) (fun _ => none) "x/y"
    (fun j _ _ => rfl) rfl

/-- C6: every branch name the resolution phase hands to the content lookup
was confirmed by the branch-exists oracle during that same resolution —
`handlePages` performs the `gitShowFile` lookup exactly on the
`ResolveOut.resolved` outcomes, and each such outcome's branch got a
positive oracle answer, whether it came from the probing loop or from the
default-branch fallback. -/
theorem pages_resolved_branch_confirmed (hasBranch : String → Except Unit Bool)
    (p b sp : String) (h : pagesResolve hasBranch p = ResolveOut.resolved b sp) :
    hasBranch b = Except.ok true := by
  unfold pagesResolve at h
  cases htry : tryPrefixes hasBranch (pagesSegments p) (goEndsWith (pagesInput p) '/')
      (pagesSegments p).length with
  | error e =>
    rw [htry] at h
    cases h
  | ok v =>
    cases v with
    | none =>
      rw [htry] at h
      cases hg : hasBranch "gh-pages" with
      | error e => rw [hg] at h; cases h
      | ok vb =>
        cases vb with
        | false => rw [hg] at h; cases h
        | true =>
          rw [hg] at h
          simp only [ResolveOut.resolved.injEq] at h
          rw [← h.1]
          exact hg
    | some bs =>
      obtain ⟨b', sp'⟩ := bs
      rw [htry] at h
      simp only [ResolveOut.resolved.injEq] at h
      rw [← h.1]
      exact tryPrefixes_confirmed hasBranch _ _ _ b' sp' htry

/-- C6 witness: a concrete resolution (branches `main` and `dev`, input
`main/x`) resolves to branch `main`, and the oracle indeed confirms it. -/
theorem pages_resolved_branch_confirmed_witness :
    (pureOracle fun s => s == "main" || s == "dev") "main" = Except.ok true := by
  exact pages_resolved_branch_confirmed (pureOracle fun s => s == "main" || s == "dev")
    "main/x" "main" "x" (by decide)

/-- C4 counterexample: with branch set `{main}` and input `main//` (which
ends with `/` and whose matched branch `main` consumes one of the two
segments), the reconstructed sub-path is the empty string, which does not
end with `/` — the claimed trailing-slash preservation fails when the
remaining segments join to the empty string. -/
theorem pages_trailing_slash_counterexample :
    goEndsWith "main//" '/' = true ∧
    (pagesSegments "main//").length = 2 ∧
    pagesResolve (pureOracle fun s => s == "main") "main//" = ResolveOut.resolved "main" "" ∧
    goEndsWith "" '/' = false := by
  decide

/-- C4 (amended): (1) if the input ends with `/`, the matched branch
consumes fewer than all segments and the remaining segments join to a
non-empty string, then the reconstructed sub-path ends with `/`; (2) a
sub-path that is empty or ends with `/` gets `index.html` appended after
path normalization to form the final in-tree path. -/
theorem pages_trailing_slash :
    (∀ (B : String → Bool) (p : String) (i : Nat),
      p ≠ "" → goEndsWith p '/' = true → 1 ≤ i → i < (pagesSegments p).length →
      B (goJoin '/' ((pagesSegments p).take i)) = true →
      (∀ j, i < j → j ≤ (pagesSegments p).length →
        B (goJoin '/' ((pagesSegments p).take j)) = false) →
      goJoin '/' ((pagesSegments p).drop i) ≠ "" →
      pagesResolve (pureOracle B) p =
        ResolveOut.resolved (goJoin '/' ((pagesSegments p).take i))
          (goJoin '/' ((pagesSegments p).drop i) ++ "/") ∧
      goEndsWith (goJoin '/' ((pagesSegments p).drop i) ++ "/") '/' = true) ∧
    (∀ sp : String, sp = "" ∨ goEndsWith sp '/' = true →
      pagesFinalSubPath sp = normalizeRepoPath sp ++ "index.html") := by
  constructor
  · intro B p i hp hslash h1 hlt hi hmax hne
    refine ⟨?_, goEndsWith_append_slash _⟩
    have hin : pagesInput p = p := if_neg hp
    unfold pagesResolve
    rw [hin, tryPrefixes_found B (pagesSegments p) (goEndsWith p '/')
      (pagesSegments p).length i h1 (Nat.le_of_lt hlt) hi hmax]
    rw [if_pos hlt, hslash]
    have hbne : (goJoin '/' ((pagesSegments p).drop i) == "") = false := by
      cases hb : goJoin '/' ((pagesSegments p).drop i) == "" with
      | false => rfl
      | true => exact absurd (by simpa using hb) hne
    rw [show trailSlash true (goJoin '/' ((pagesSegments p).drop i)) =
      (if (true && !(goJoin '/' ((pagesSegments p).drop i) == "")) = true then
        goJoin '/' ((pagesSegments p).drop i) ++ "/"
      else goJoin '/' ((pagesSegments p).drop i)) from rfl]
    rw [hbne]
    rfl
  · intro sp hsp
    rcases hsp with hsp | hsp
    · subst hsp
      decide
    · show (if (normalizeRepoPath sp == "" || goEndsWith (normalizeRepoPath sp) '/') = true then
        normalizeRepoPath sp ++ "index.html" else normalizeRepoPath sp) =
        normalizeRepoPath sp ++ "index.html"
      rw [normalize_slash sp hsp]
      rfl

/-- C4 witness: with branch `main` and input `main/assets/`, the sub-path
before document-default substitution is `assets/`, and the substitution
turns `assets/` into `assets/index.html`. -/
theorem pages_trailing_slash_witness :
    pagesResolve (pureOracle fun s => s == "main") "main/assets/"
      = ResolveOut.resolved "main" "assets/" ∧
    pagesFinalSubPath "assets/" = "assets/index.html" := by
  constructor
  · have h := (pages_trailing_slash.1 (fun s => s == "main") "main/assets/" 1
      (by decide) (by decide) (by decide) (by decide) (by decide)
      (by
        intro j hj1 hj2
        have hlen : (pagesSegments "main/assets/").length = 2 := by decide
        rw [hlen] at hj2
        interval_cases j
        decide)
      (by decide)).1
    exact h.trans (by decide)
  · exact (pages_trailing_slash.2 "assets/" (Or.inr (by decide))).trans (by decide)

/-- C5: on the empty input tail the handler requests the default branch
`gh-pages` at its root: provided `gh-pages` exists and the content lookup
finds `gh-pages:index.html`, the handler serves exactly that file. -/
theorem pages_empty_input_default (hasBranch : String → Except Unit Bool)
    (showFile : String → Option (List Nat)) (body : List Nat)
    (hdef : hasBranch "gh-pages" = Except.ok true)
    (hfile : showFile "gh-pages:index.html" = some body) :
    handlePages hasBranch showFile "" = PagesResponse.content "gh-pages" "index.html" body := by
  have htry : tryPrefixes hasBranch (pagesSegments "") (goEndsWith (pagesInput "") '/')
      (pagesSegments "").length = Except.ok (some ("gh-pages", "")) := by
    show tryPrefixes hasBranch ["gh-pages"] true 1 = Except.ok (some ("gh-pages", ""))
    show (match hasBranch (goJoin '/' (List.take 1 ["gh-pages"])) with
      | Except.error e => Except.error e
      | Except.ok true =>
        Except.ok (some (goJoin '/' (List.take 1 ["gh-pages"]),
          trailSlash true (if 1 < (["gh-pages"] : List String).length then
            goJoin '/' (List.drop 1 ["gh-pages"]) else "")))
      | Except.ok false => tryPrefixes hasBranch ["gh-pages"] true 0) = Except.ok (some ("gh-pages", ""))
    rw [show goJoin '/' (List.take 1 (["gh-pages"] : List String)) = "gh-pages" from rfl, hdef]
    rfl
  have hres : pagesResolve hasBranch "" = ResolveOut.resolved "gh-pages" "" := by
    unfold pagesResolve
    rw [htry]
  show handlePages hasBranch showFile "" = PagesResponse.content "gh-pages" "index.html" body
  unfold handlePages
  rw [hres]
  show pagesLookup showFile "gh-pages" "" = PagesResponse.content "gh-pages" "index.html" body
  unfold pagesLookup
  rw [show ("gh-pages" ++ ":" ++ pagesFinalSubPath "") = "gh-pages:index.html" from rfl, hfile]
  rfl

/-- C5 witness: with branch set `{gh-pages}` and a tree containing
`index.html` at the root of `gh-pages`, the empty input serves
`gh-pages:index.html`. -/
theorem pages_empty_input_default_witness :
    handlePages (pureOracle fun s => s == "gh-pages")
      (fun s => if s == "gh-pages:index.html" then some [42] else none) ""
      = PagesResponse.content "gh-pages" "index.html" [42] := by
  exact pages_empty_input_default (pureOracle fun s => s == "gh-pages")
    (fun s => if s == "gh-pages:index.html" then some [42] else none) [42] rfl rfl

/-- C7 counterexample: the input `a//b` (mount stripped) splits into
segments `a`, `` and `b` — the empty string is among the components, so
the split does not always yield non-empty components. -/
theorem pages_segments_counterexample :
    pagesSegments "a//b" = ["a", "", "b"] ∧ "" ∈ pagesSegments "a//b" := by
  decide

/-- C7 (amended): splitting the mount-stripped input on `/` yields an
ordered sequence of possibly-empty components which, re-joined with `/` in
order, reconstructs the trailing-slash-trimmed (and empty-defaulted)
input — ordering is preserved and nothing is lost. -/
theorem pages_segments_rejoin (p : String) :
    goJoin '/' (pagesSegments p) = goTrimSuf (pagesInput p) '/' :=
  goJoin_goSplit '/' (goTrimSuf (pagesInput p) '/')

/-- C8: (1) if the oracle errs on a candidate that the probing loop
reaches (all longer candidates having answered `false`), the handler
aborts with the HTTP 500 internal error for the branch check; (2) if every
candidate answers `false` and the oracle errs on the fallback `gh-pages`
verification, the handler aborts with the HTTP 500 internal error for the
gh-pages check; (3) with a never-erring oracle — answers of `false`, i.e.
"no branch matched", being normal control flow — the handler never
produces a 500 internal error. -/
theorem pages_check_error_vs_no_match :
    (∀ (hasBranch : String → Except Unit Bool) (showFile : String → Option (List Nat))
      (p : String) (j : Nat), 1 ≤ j → j ≤ (pagesSegments p).length →
      hasBranch (goJoin '/' ((pagesSegments p).take j)) = Except.error () →
      (∀ m, j < m → m ≤ (pagesSegments p).length →
        hasBranch (goJoin '/' ((pagesSegments p).take m)) = Except.ok false) →
      handlePages hasBranch showFile p = PagesResponse.error 500 "Failed to check branch") ∧
    (∀ (hasBranch : String → Except Unit Bool) (showFile : String → Option (List Nat))
      (p : String),
      (∀ j, 1 ≤ j → j ≤ (pagesSegments p).length →
        hasBranch (goJoin '/' ((pagesSegments p).take j)) = Except.ok false) →
      hasBranch "gh-pages" = Except.error () →
      handlePages hasBranch showFile p = PagesResponse.error 500 "Failed to check gh-pages branch") ∧
    (∀ (B : String → Bool) (showFile : String → Option (List Nat)) (p : String),
      statusOf (handlePages (pureOracle B) showFile p) ≠ 500) := by
  refine ⟨?_, ?_, ?_⟩
  · intro hb sf p j h1 h2 hj hmax
    unfold handlePages pagesResolve
    rw [tryPrefixes_error hb _ _ _ j h1 h2 hj hmax]
  · intro hb sf p hnone hg
    unfold handlePages pagesResolve
    rw [tryPrefixes_none hb _ _ _ hnone, hg]
  · intro B sf p
    rcases pagesResolve_pure_cases B p with ⟨b, sp, hres⟩ | hres
    · unfold handlePages
      rw [hres]
      show statusOf (pagesLookup sf b sp) ≠ 500
      unfold pagesLookup
      cases sf (b ++ ":" ++ pagesFinalSubPath sp)
      all_goals simp [statusOf]
    · unfold handlePages
      rw [hres]
      simp [statusOf]

/-- C8 witness: an oracle that errs on the single candidate `x` makes the
handler answer the 500 branch-check error. -/
theorem pages_check_error_vs_no_match_witness :
    handlePages (fun s => if s == "x" then Except.error () else Except.ok false)
      (fun _ => none) "x" = PagesResponse.error 500 "Failed to check branch" := by
  exact pages_check_error_vs_no_match.1
    (fun s => if s == "x" then Except.error () else Except.ok false) (fun _ => none) "x" 1
    (by decide) (by decide) rfl
    (by
      intro m hm1 hm2
      exfalso
      have hlen : (pagesSegments "x").length = 1 := by decide
      rw [hlen] at hm2
      omega)

/-- C9: whenever the resolution phase produced a branch and sub-path but
the content lookup fails, the handler answers the HTTP 404 client error
whose message names the attempted branch — a not-found outcome, never a
5xx server error. -/
theorem pages_content_not_found (hasBranch : String → Except Unit Bool)
    (showFile : String → Option (List Nat)) (p b sp : String)
    (hres : pagesResolve hasBranch p = ResolveOut.resolved b sp)
    (hmiss : showFile (b ++ ":" ++ pagesFinalSubPath sp) = none) :
    handlePages hasBranch showFile p = PagesResponse.error 404 ("File not found in " ++ b) := by
  unfold handlePages
  rw [hres]
  show pagesLookup showFile b sp = PagesResponse.error 404 ("File not found in " ++ b)
  unfold pagesLookup
  rw [hmiss]

/-- C9 witness: with branch `main`, input `main/x` and an empty tree, the
handler answers 404 "File not found in main". -/
theorem pages_content_not_found_witness :
    handlePages (pureOracle fun s => s == "main") (fun _ => none) "main/x"
      = PagesResponse.error 404 "File not found in main" := by
  exact pages_content_not_found (pureOracle fun s => s == "main") (fun _ => none)
    "main/x" "main" "x" (by decide) rfl

/-- The Content and Truncated fields that `handleBlob`
(src/main.go:297-308) computes from the fetched file bytes. -/
structure BlobPreview where
  /-- The bytes handed to the template as the displayed content. -/
  Content : List Nat
  /-- Whether the content was cut at the preview limit. -/
  Truncated : Bool
deriving DecidableEq

/-- The preview limit of `handleBlob` (src/main.go:297): 200 KiB. -/
def maxPreview : Nat := 200 * 1024

/-- Embedding of the truncation step of `handleBlob` (src/main.go:297-308):
mark the content truncated when it exceeds `maxPreview` bytes and cut it
to the first `maxPreview` bytes in that case. -/
def blobPreview (content : List Nat) : BlobPreview :=
  let truncated : Bool := decide (content.length > maxPreview)
  let content2 := if truncated then content.take maxPreview else content
  ⟨content2, truncated⟩

/-- C10: the blob viewer displays at most 204800 bytes: the preview limit
is 204800, the displayed content never exceeds it, content longer than the
limit is cut to exactly its first 204800 bytes with the Truncated flag
set, and content within the limit is shown in full with the flag clear. -/
theorem blob_preview_cap (c : List Nat) :
    maxPreview = 204800 ∧
    (blobPreview c).Content.length ≤ maxPreview ∧
    (maxPreview < c.length →
      (blobPreview c).Content = c.take maxPreview ∧ (blobPreview c).Truncated = true) ∧
    (c.length ≤ maxPreview →
      (blobPreview c).Content = c ∧ (blobPreview c).Truncated = false) := by
  refine ⟨rfl, ?_, ?_, ?_⟩
  · by_cases h : maxPreview < c.length
    · simp [blobPreview, h, List.length_take]
    · simp [blobPreview, h]
      omega
  · intro h
    simp [blobPreview, h]
  · intro h
    have h2 : ¬ maxPreview < c.length := by omega
    simp [blobPreview, h2]

/-- C10 witness: a three-byte file is shown in full and not marked
truncated. -/
theorem blob_preview_cap_witness :
    (blobPreview [1, 2, 3]).Content = [1, 2, 3] ∧ (blobPreview [1, 2, 3]).Truncated = false := by
  exact (blob_preview_cap [1, 2, 3]).2.2.2 (by decide)

end GitViewer
